import Mathlib

/-
Verification of the zip-dir-analyzer core against its design description.

The sources consist of two generations of the same crate:
  src/main.rs            — scheduler (ZipDirAnalyzer::run / walk_dir), tree walker
                           (walk_path / walk_zip / search_file), the two-argument
                           reporter, the line matcher grep_file and the jq matcher
                           grep_file (JqProcessor);
  src/shared_iterator.rs — SharedIterator (a shared forward-only cursor);
  src/regex_processor.rs — process_file, the newer line matcher that borrows
                           after-context lines through SharedIterator;
  src/jq_processor.rs    — the newer jq matcher.
Rust strings become String, iterators over decode results become
List (Except String String), the thread pool and its atomic counters become an
explicit small-step relation on a scheduler state, and printed diagnostics are
collected in lists.  A Rust panic is modelled by Option.none.
-/

/-- Suffix test on strings, modelling Rust str::ends_with (done on the character
list so that it evaluates inside the kernel). -/
def endsWithStr (s suf : String) : Bool := suf.data.isSuffixOf s.data

/-- Success test for a decode result, modelling Result::is_ok. -/
def isOkE {ε α : Type} : Except ε α → Bool
  | Except.ok _ => true
  | Except.error _ => false

/-- One printed diagnostic line.  Constructors carry the payload of the
corresponding println in the sources. -/
inductive Diag where
  /-- main.rs grep_file: WARN path skipping file (max consecutive errors) err. -/
  | warnSkipFile (path err : String)
  /-- main.rs grep_file: WARN path skipped line due to err. -/
  | warnSkipLine (path err : String)
  /-- main.rs walk_dir worker closure: WARN path skipped due to err. -/
  | warnUnitSkipped (path err : String)
  /-- main.rs walk_path: INFO skipping non-file path (verbose only). -/
  | infoSkipNonFile (path : String)
  /-- main.rs search_file: INFO skipping path (verbose only). -/
  | infoSkipName (path : String)
  /-- main.rs walk_zip: No support for a zip of a zip yet name (unconditional). -/
  | noZipOfZip (path : String)
  /-- main.rs grep_file (JqProcessor): JSON Error (suppressed when quiet). -/
  | jsonError (msg : String)
  /-- main.rs grep_file (JqProcessor): Error from the query run (unconditional). -/
  | jqError (msg : String)
deriving DecidableEq

/-- Whether the quiet flag gates this diagnostic in the sources: true exactly for
the diagnostics printed under a `!quiet` test. -/
def Diag.quietGated : Diag → Bool
  | Diag.warnSkipFile _ _ => true
  | Diag.warnSkipLine _ _ => true
  | Diag.warnUnitSkipped _ _ => true
  | Diag.jsonError _ => true
  | _ => false

/-- Which stream the diagnostic is printed to: true for stdout (println), false
for stderr (eprintln) in the sources. -/
def Diag.toStdout : Diag → Bool
  | Diag.jsonError _ => true
  | Diag.jqError _ => true
  | _ => false

/-- The CLI options of main.rs (struct Args).  The positional strings
directory / file_pat / pattern are consumed at startup; their compiled forms are
passed to the functions below as the root node, the filename predicate and the
line predicate. -/
structure Args where
  directory : String
  file_pat : String
  pattern : String
  verbose : Bool
  quiet : Bool
  delimiter : String
  zip_delimiter : String
  parallel : Nat
  no_file : Bool
  file_only : Bool
  zip_only : Bool
  max_errors : Nat
  jq : Bool
deriving DecidableEq

/-- The clap defaults of struct Args. -/
def defaultArgs : Args :=
  { directory := ".", file_pat := "", pattern := "", verbose := false,
    quiet := false, delimiter := ": ", zip_delimiter := "!", parallel := 4,
    no_file := false, file_only := false, zip_only := false, max_errors := 3,
    jq := false }

/-- The record text written by ZipDirAnalyzer::report in main.rs. -/
def reportFmt (a : Args) (file line : String) : String :=
  if a.no_file then line
  else if a.file_only then
    (if a.zip_only then (file.splitOn a.zip_delimiter).headD file else file)
  else file ++ a.delimiter ++ line

/-- The line matcher grep_file of main.rs (RegexProcessor impl): scan decode
results, keep a consecutive-error counter, report matching lines.  Returns
(reported records, diagnostics, early-exit flag); report's return value is
file_only || zip_only as in main.rs report. -/
def grep_file (a : Args) (rmatch : String → Bool) (path : String) (ec : Nat) :
    List (Except String String) → List String × List Diag × Bool
  | [] => ([], [], false)
  | Except.error err :: _rest =>
      if a.max_errors < ec then
        ([], if a.quiet then [] else [Diag.warnSkipFile path err], false)
      else
        let out := grep_file a rmatch path (ec + 1) _rest
        (out.1, (if a.quiet then [] else [Diag.warnSkipLine path err]) ++ out.2.1, out.2.2)
  | Except.ok line :: rest =>
      if rmatch line then
        if a.file_only || a.zip_only then ([reportFmt a path line], [], true)
        else
          let out := grep_file a rmatch path 0 rest
          (reportFmt a path line :: out.1, out.2.1, out.2.2)
      else grep_file a rmatch path 0 rest

/-- JSON values as parsed by serde_json (the numeric and object payloads are
irrelevant to the claims and kept minimal). -/
inductive Json where
  | str (s : String)
  | num (n : Int)
  | boolean (b : Bool)
  | null
  | arr (items : List Json)

/-- serde_json::Value::as_str — some only on strings. -/
def Json.as_str : Json → Option String
  | Json.str s => some s
  | _ => none

/-- The result loop of grep_file (JqProcessor impl) in main.rs: each Ok value is
reported through as_str().unwrap() — none models the panic on a non-string —
and each Err value prints an unconditional "Error:" line to stdout. -/
def jq_out_loop (a : Args) (path : String) :
    List (Except String Json) → Option (List String × List Diag × Bool)
  | [] => some ([], [], false)
  | Except.ok json_val :: rest =>
      (match Json.as_str json_val with
       | none => none
       | some s =>
          if a.file_only || a.zip_only then some ([reportFmt a path s], [], true)
          else
            (jq_out_loop a path rest).map
              (fun out => (reportFmt a path s :: out.1, out.2.1, out.2.2)))
  | Except.error err :: rest =>
      (jq_out_loop a path rest).map
        (fun out => (out.1, Diag.jqError err :: out.2.1, out.2.2))

/-- grep_file (JqProcessor impl) of main.rs: parse the document, run the filter
(passed as a function, the jaq engine being an external capability), loop over
the results.  A parse failure prints "JSON Error" unless quiet and yields no
results. -/
def grep_file_jq (a : Args) (path : String) (parsed : Except String Json)
    (filterRun : Json → List (Except String Json)) :
    Option (List String × List Diag × Bool) :=
  match parsed with
  | Except.ok value => jq_out_loop a path (filterRun value)
  | Except.error je => some ([], if a.quiet then [] else [Diag.jsonError je], false)

/-- One zip archive entry as exposed by the Archive Reader capability: a
directory placeholder or a file entry.  walk_zip never opens an entry whose
composed name ends in ".zip", so no nested content is carried. -/
inductive ZEntry where
  | zdir (name : String)
  | zfile (name : String)
deriving DecidableEq

/-- The bytes behind a regular file: either not a parseable zip archive, or a
parseable archive with its entries (ZipArchive::new succeeds exactly on the
latter). -/
inductive FileBytes where
  | plain
  | archiveBytes (entries : List ZEntry)

/-- A filesystem node: a directory with named children, a regular file, or a
non-file (symlink, device, missing path): is_dir and is_file are both false on
the latter. -/
inductive Node where
  | dir (entries : List (String × Node))
  | file (bytes : FileBytes)
  | other

/-- Error text for ZipArchive::new failing on a non-archive. -/
def zipOpenError (path : String) : String := "invalid zip archive " ++ path

/-- Error text for File::open failing on a non-file. -/
def fileOpenError (path : String) : String := "cannot open " ++ path

/-- main.rs search_file: the filename filter is applied here — and only
here — before grep_file runs; a scanned path is recorded in the first list. -/
def search_file (a : Args) (fm : String → Bool) (path : String) :
    List String × List Diag :=
  if fm path then ([path], [])
  else ([], if a.verbose then [Diag.infoSkipName path] else [])

/-- main.rs walk_zip: each non-directory entry gets logical name
path ++ "!" ++ entry name (the "!" is a literal in the source, independent of
Args.zip_delimiter); an entry whose composed name ends in ".zip" only prints
the unconditional no-support notice and is not descended into. -/
def walk_zip (a : Args) (fm : String → Bool) (path : String) :
    List ZEntry → List String × List Diag
  | [] => ([], [])
  | ZEntry.zdir _ :: rest => walk_zip a fm path rest
  | ZEntry.zfile name :: rest =>
      let file_name := path ++ "!" ++ name
      let thisOut :=
        if endsWithStr file_name ".zip" then ([], [Diag.noZipOfZip file_name])
        else search_file a fm file_name
      let restOut := walk_zip a fm path rest
      (thisOut.1 ++ restOut.1, thisOut.2 ++ restOut.2)

mutual
/-- main.rs walk_path: classify a path — directory, then name ending in ".zip",
then regular file (grep_file directly, with no filename filter), else skip.
Returns Except to model the anyhow::Result; the scanned paths (arguments of
grep_file calls) are the first component. -/
def walk_path (a : Args) (fm : String → Bool) (path : String) :
    Node → Except String (List String × List Diag)
  | Node.dir es => Except.ok (walk_dir a fm path es)
  | Node.file bytes =>
      if endsWithStr path ".zip" then
        match bytes with
        | FileBytes.archiveBytes zs => Except.ok (walk_zip a fm path zs)
        | FileBytes.plain => Except.error (zipOpenError path)
      else Except.ok ([path], [])
  | Node.other =>
      if endsWithStr path ".zip" then Except.error (fileOpenError path)
      else Except.ok ([], if a.verbose then [Diag.infoSkipNonFile path] else [])

/-- main.rs walk_dir: one unit per entry; a failing child is warned about
(unless quiet) and never aborts its siblings.  The pool scheduling itself is
modelled by the Step relation below; the scanned paths and diagnostics are the
same in either order of execution, collected here in entry order. -/
def walk_dir (a : Args) (fm : String → Bool) (path : String) :
    List (String × Node) → List String × List Diag
  | [] => ([], [])
  | (name, child) :: rest =>
      let childPath := path ++ "/" ++ name
      let childOut :=
        match walk_path a fm childPath child with
        | Except.ok r => r
        | Except.error e =>
            ([], if a.quiet then [] else [Diag.warnUnitSkipped childPath e])
      let restOut := walk_dir a fm path rest
      (childOut.1 ++ restOut.1, childOut.2 ++ restOut.2)
end

/-- fn main plus the startup part of ZipDirAnalyzer::run: the content pattern is
compiled in main, the filename pattern at the top of run, both before any walk;
a compile failure is returned as Err, which makes the process exit non-zero.
patternOk and filePatOk are the outcomes of the two external compilations. -/
def mainRun (patternOk filePatOk : Bool) (a : Args) (fm : String → Bool)
    (rootPath : String) (root : Node) : Except String (List String × List Diag) :=
  if !patternOk then Except.error "pattern compile failed"
  else if !filePatOk then Except.error "file_pat compile failed"
  else walk_path a fm rootPath root

/-- The children a work unit will schedule when it runs: one per directory
entry, none for files, zips and non-files (walk_zip scans entries inline). -/
def Node.childNodes : Node → List Node
  | Node.dir es => es.map Prod.snd
  | _ => []

/-- The scheduler state of ZipDirAnalyzer: the two atomic counters, the pool
queue (units enqueued by pool.execute and not yet started), the running units
(each holding the directory entries it has not yet scheduled), and the entries
the synchronous root walk in run still has to schedule. -/
structure SchedState where
  ops_scheduled : Nat
  ops_complete : Nat
  queue : List Node
  running : List (List Node)
  rootPending : List Node

/-- The state right after ZipDirAnalyzer::run constructs the analyzer: both
atomics are Default::default(), that is 0 — not 1. -/
def initState (root : Node) : SchedState :=
  { ops_scheduled := 0, ops_complete := 0, queue := [], running := [],
    rootPending := root.childNodes }

/-- One scheduler step, following main.rs walk_dir and the worker closure:
ops_scheduled is bumped before a child is enqueued (fetch_add then
pool.execute); a running unit bumps ops_complete only after its whole walk —
including every child registration — has returned.  rootSched/rootFail are the
synchronous root walk on the main thread (not itself a counted unit);
entryFail is `entry?` failing after its fetch_add, which abandons the rest of
the enumeration; dirFail is read_dir failing outright. -/
inductive Step : SchedState → SchedState → Prop where
  | rootSched (s : SchedState) (c : Node) (rest : List Node) :
      s.rootPending = c :: rest →
      Step s { s with ops_scheduled := s.ops_scheduled + 1,
                      queue := s.queue ++ [c], rootPending := rest }
  | rootFail (s : SchedState) (c : Node) (rest : List Node) :
      s.rootPending = c :: rest →
      Step s { s with ops_scheduled := s.ops_scheduled + 1, rootPending := [] }
  | start (s : SchedState) (c : Node) (rest : List Node) :
      s.queue = c :: rest →
      Step s { s with queue := rest, running := c.childNodes :: s.running }
  | schedChild (s : SchedState) (a b : List (List Node)) (c : Node) (cs : List Node) :
      s.running = a ++ (c :: cs) :: b →
      Step s { s with ops_scheduled := s.ops_scheduled + 1,
                      queue := s.queue ++ [c], running := a ++ cs :: b }
  | entryFail (s : SchedState) (a b : List (List Node)) (c : Node) (cs : List Node) :
      s.running = a ++ (c :: cs) :: b →
      Step s { s with ops_scheduled := s.ops_scheduled + 1,
                      running := a ++ ([] : List Node) :: b }
  | dirFail (s : SchedState) (a b : List (List Node)) (c : Node) (cs : List Node) :
      s.running = a ++ (c :: cs) :: b →
      Step s { s with running := a ++ ([] : List Node) :: b }
  | finish (s : SchedState) (a b : List (List Node)) :
      s.running = a ++ ([] : List Node) :: b →
      Step s { s with ops_complete := s.ops_complete + 1, running := a ++ b }

/-- States the run can be in, starting from the freshly built analyzer. -/
def Reachable (root : Node) (s : SchedState) : Prop :=
  Relation.ReflTransGen Step (initState root) s

/-- The wait loop's local variables in run before the first load:
let mut scheduled = 1; let mut complete = 0. -/
def waitLoopInit : Nat × Nat := (1, 0)

/-- The wait loop's guard in run: while scheduled > complete. -/
def waitLoopContinue (scheduled complete : Nat) : Bool :=
  decide (scheduled > complete)

/-- shared_iterator.rs SharedIterator::next: borrow the single underlying
iterator and advance it.  Every cloned handle aliases the same state, so the
state is the one list threaded through all calls. -/
def SharedIterator.next {α : Type} (state : List α) : Option (α × List α) :=
  match state with
  | [] => none
  | x :: rest => some (x, rest)

/-- n calls of SharedIterator::next, distributed over any handles (all handles
alias the single state): the delivered elements and the final shared state. -/
def nextN {α : Type} : Nat → List α → List α × List α
  | 0, state => ([], state)
  | n + 1, state =>
      match SharedIterator.next state with
      | none => ([], state)
      | some (x, rest) =>
          let out := nextN n rest
          (x :: out.1, out.2)

/-- Modelled from the spec: the Output mode selector referenced by
regex_processor.rs as Args.output; its declaration is not among the sources.
Spec section 4.5 lists whole-record, path-only, full-entry-path-only and
value-only (capture) modes. -/
inductive Output where
  | wholeRecord
  | pathOnly
  | fullPathOnly
  | capture
deriving DecidableEq

/-- Modelled from the spec (section 4.5 table): the reporter asks the caller to
stop scanning the file after the first match exactly in the two path-only
modes. -/
def Output.stopAfterFirst : Output → Bool
  | Output.pathOnly => true
  | Output.fullPathOnly => true
  | _ => false

/-- The configuration consumed by regex_processor.rs process_file.  quiet and
max_errors are the Args fields of main.rs; after (the context count K) and
output are modelled from the spec, their declaring code not being among the
sources. -/
structure ScanContext where
  quiet : Bool
  max_errors : Nat
  after : Nat
  output : Output

/-- How a line behind Output matching works in regex_processor.rs: capture mode
tests regex.captures(line).is_some(), the other modes regex.is_match(line).
rm and rc are the two faces of the compiled regex capability. -/
def lineMatches (ctx : ScanContext) (rm : String → Bool)
    (rc : String → Option (List String)) (line : String) : Bool :=
  match ctx.output with
  | Output.capture => (rc line).isSome
  | _ => rm line

/-- Modelled from the spec: the three-argument report called by
regex_processor.rs (its body is not among the sources).  Per sections 4.4/4.5
it consumes, in the non-stopping modes, up to `after` trailing lines from the
shared iterator for context; those pulls go through the source's
`lines.clone().map(|r| r.unwrap())`, so hitting a decode failure among them is
a panic (none).  Returns (number of shared pulls, stop flag); the rendered
record text plays no part in the claims. -/
def report (ctx : ScanContext) (rest : List (Except String String)) :
    Option (Nat × Bool) :=
  if ctx.output.stopAfterFirst then some (0, true)
  else
    let taken := rest.take ctx.after
    if taken.all isOkE then some (taken.length, false) else none

/-- Who pulled a line from the shared cursor. -/
inductive ReadTag where
  | primary
  | context
deriving DecidableEq

/-- Outcome of one process_file run: whether it returned true (early exit), the
final shared position, every pull from the shared cursor in order (tag and
position), and whether the consecutive-error break fired. -/
structure ScanResult where
  hit : Bool
  pos : Nat
  reads : List (ReadTag × Nat)
  aborted : Bool
deriving DecidableEq

/-- Positions pos + 1 + i of the n context pulls made at a match at pos. -/
def ctxReads (pos n : Nat) : List (ReadTag × Nat) :=
  (List.range n).map (fun i => (ReadTag.context, pos + 1 + i))

/-- regex_processor.rs process_file, from the shared cursor's point of view:
the for loop pulls one decode result per iteration from the shared iterator
(a primary read); a decode failure past the budget breaks, otherwise it bumps
the consecutive-error count; a matching line calls report, whose context pulls
advance the same shared state before the loop resumes behind them; any decoded
line resets the count.  none is the context-pull panic. -/
def process_file_go (ctx : ScanContext) (rm : String → Bool)
    (rc : String → Option (List String)) (ec pos : Nat) :
    List (Except String String) → Option ScanResult
  | [] => some { hit := false, pos := pos, reads := [], aborted := false }
  | Except.error _err :: rest =>
      if ctx.max_errors < ec then
        some { hit := false, pos := pos + 1, reads := [(ReadTag.primary, pos)],
               aborted := true }
      else
        (process_file_go ctx rm rc (ec + 1) (pos + 1) rest).map
          (fun r => { r with reads := (ReadTag.primary, pos) :: r.reads })
  | Except.ok line :: rest =>
      if lineMatches ctx rm rc line then
        match report ctx rest with
        | none => none
        | some (n, true) =>
            some { hit := true, pos := pos + 1 + n,
                   reads := (ReadTag.primary, pos) :: ctxReads pos n,
                   aborted := false }
        | some (n, false) =>
            (process_file_go ctx rm rc 0 (pos + 1 + n) (rest.drop n)).map
              (fun r => { r with
                reads := ((ReadTag.primary, pos) :: ctxReads pos n) ++ r.reads })
      else
        (process_file_go ctx rm rc 0 (pos + 1) rest).map
          (fun r => { r with reads := (ReadTag.primary, pos) :: r.reads })
termination_by l => l.length
decreasing_by
  all_goals simp [List.length_drop]
  all_goals omega

/-- process_file on a fresh SharedIterator (position 0, error count 0). -/
def process_file (ctx : ScanContext) (rm : String → Bool)
    (rc : String → Option (List String)) (l : List (Except String String)) :
    Option ScanResult :=
  process_file_go ctx rm rc 0 0 l

/-- The positions s, s+1, ..., s+n-1 in order. -/
def posRange : Nat → Nat → List Nat
  | _, 0 => []
  | s, n + 1 => s :: posRange (s + 1) n

/- Concrete fixtures used by the closed theorems below. -/

/-- A quiet Args with bare-line output, max_errors at its default 3. -/
def argsBudget : Args := { defaultArgs with no_file := true, quiet := true }

/-- A quiet Args with all other defaults. -/
def argsQuiet : Args := { defaultArgs with quiet := true }

/-- Args configuring "#" as the container delimiter. -/
def argsHash : Args := { defaultArgs with zip_delimiter := "#" }

/-- Content predicate matching exactly the line "MATCH". -/
def rmMatch : String → Bool := fun s => s == "MATCH"

/-- Content predicate matching exactly the line "m". -/
def rmLit : String → Bool := fun s => s == "m"

/-- Content predicate matching nothing. -/
def rmNone : String → Bool := fun _ => false

/-- Capture capability yielding no captures. -/
def rcNone : String → Option (List String) := fun _ => none

/-- Filename filter accepting only names ending in ".txt". -/
def fmTxt : String → Bool := fun p => endsWithStr p ".txt"

/-- Filename filter accepting everything. -/
def fmAll : String → Bool := fun _ => true

/-- A decode failure line. -/
def errLine : Except String String := Except.error "bad line"

/-- max_errors + 1 = 4 consecutive decode failures, then a matching line. -/
def budgetLines4 : List (Except String String) :=
  [errLine, errLine, errLine, errLine, Except.ok "MATCH"]

/-- max_errors + 2 = 5 consecutive decode failures, then a matching line. -/
def budgetLines5 : List (Except String String) :=
  [errLine, errLine, errLine, errLine, errLine, Except.ok "MATCH"]

/-- Exactly max_errors = 3 consecutive decode failures, then a matching line. -/
def budgetLines3 : List (Except String String) :=
  [errLine, errLine, errLine, Except.ok "MATCH"]

/-- Two bursts of max_errors failures separated by a good line, then a match:
stays under the budget only because the good line resets the counter. -/
def budgetReset : List (Except String String) :=
  [errLine, errLine, errLine, Except.ok "x", errLine, errLine, errLine,
   Except.ok "MATCH"]

/-- A directory containing one ordinary file whose name fails the ".txt"
filter. -/
def treeUnfiltered : Node := Node.dir [("notes.md", Node.file FileBytes.plain)]

/-- A directory holding outer.zip, which contains a nested inner.zip and an
ordinary entry log.txt. -/
def treeNested : Node :=
  Node.dir [("outer.zip",
    Node.file (FileBytes.archiveBytes [ZEntry.zfile "inner.zip", ZEntry.zfile "log.txt"]))]

/-- A whole-record scan context with one line of after-context. -/
def ctxWhole : ScanContext :=
  { quiet := true, max_errors := 3, after := 1, output := Output.wholeRecord }

/-- A path-only scan context (the reporter stops the file after one match). -/
def ctxPathOnly : ScanContext :=
  { quiet := true, max_errors := 3, after := 1, output := Output.pathOnly }

/-- A match immediately followed by a decode failure. -/
def panicLines : List (Except String String) :=
  [Except.ok "m", Except.error "boom"]

/-- max_errors + 2 consecutive decode failures, then one more line: the budget
break abandons the file before the last line. -/
def abortLines : List (Except String String) :=
  [errLine, errLine, errLine, errLine, errLine, Except.ok "x"]

/-- An all-ok one-line file for witnesses. -/
def lW : List (Except String String) := [Except.ok "a"]

/-- The scan outcome of lW under ctxWhole and rmNone. -/
def outW : ScanResult :=
  { hit := false, pos := 1, reads := [(ReadTag.primary, 0)], aborted := false }

/-- A query run that fails with an evaluation error. -/
def filterErr : Json → List (Except String Json) :=
  fun _ => [Except.error "jq eval failed"]

/-- The identity query: yields its input document. -/
def idFilter : Json → List (Except String Json) := fun v => [Except.ok v]

/-- A query yielding one string value. -/
def strFilter : Json → List (Except String Json) :=
  fun _ => [Except.ok (Json.str "hello")]

deriving instance DecidableEq for Except

/-- The scanned paths of a walk result (none when the walk returned Err). -/
def scansOf : Except String (List String × List Diag) → List String
  | Except.ok r => r.1
  | Except.error _ => []

/-- A quiet and verbose Args. -/
def argsQV : Args := { defaultArgs with quiet := true, verbose := true }

/- Scheduler invariants -/

/-- Core counting invariant of the scheduler: every unit in the queue or in
flight was counted in ops_scheduled before it became visible, and retired units
were counted exactly once, so completed plus pending never exceeds scheduled. -/
theorem sched_inv (root : Node) (s : SchedState) (h : Reachable root s) :
    s.ops_complete + s.queue.length + s.running.length ≤ s.ops_scheduled := by
  induction h with
  | refl => simp [initState]
  | tail _hst step ih =>
      cases step <;>
        (rename_i ht
         have hlen := congrArg List.length ht
         try simp only [List.length_append, List.length_cons, List.length_nil] at hlen
         try dsimp only
         try simp only [List.length_append, List.length_cons, List.length_nil]
         omega)

/-- C1 counterexample: the scheduler's scheduled counter is not seeded to 1
before the root task exists — ops_scheduled is Default::default(), that is 0,
when the analyzer is constructed. -/
theorem scheduled_counter_not_seeded_one :
    (initState Node.other).ops_scheduled = 0 ∧
    ¬ (initState Node.other).ops_scheduled = 1 := by
  exact ⟨rfl, by decide⟩

/-- C1 (amended): in every reachable scheduler state completed never exceeds
scheduled; the atomic counters both start at 0 — the wait loop's local
snapshot, not the counter, is primed to (1, 0) so its body runs at least
once — and the loop guard declares the run finished exactly when a loaded
snapshot has completed equal to scheduled. -/
theorem scheduler_counters_inv :
    waitLoopInit = (1, 0) ∧
    waitLoopContinue waitLoopInit.1 waitLoopInit.2 = true ∧
    ∀ (root : Node) (s : SchedState), Reachable root s →
      s.ops_complete ≤ s.ops_scheduled ∧
      (waitLoopContinue s.ops_scheduled s.ops_complete = false ↔
        s.ops_complete = s.ops_scheduled) := by
  refine ⟨rfl, by decide, fun root s h => ?_⟩
  have hinv := sched_inv root s h
  refine ⟨by omega, ?_, ?_⟩
  · intro hfalse
    have hng : ¬ s.ops_scheduled > s.ops_complete := by
      simpa [waitLoopContinue] using hfalse
    omega
  · intro heq
    simp [waitLoopContinue, heq]

/-- Witness for C1 at the freshly constructed analyzer. -/
theorem scheduler_counters_inv_witness :
    (initState Node.other).ops_complete ≤ (initState Node.other).ops_scheduled ∧
    (waitLoopContinue (initState Node.other).ops_scheduled
        (initState Node.other).ops_complete = false ↔
      (initState Node.other).ops_complete = (initState Node.other).ops_scheduled) :=
  scheduler_counters_inv.2.2 Node.other (initState Node.other) Relation.ReflTransGen.refl

/-- C2: whenever an observer reads completed equal to scheduled, no registered
unit is queued or in flight — in particular none that still has children to
register; and any step that publishes a completed increment registers no child
with it and only retires a unit whose child list is exhausted, because
walk_dir's fetch_add on ops_scheduled happens inside the walk, before the
worker closure's fetch_add on ops_complete. -/
theorem quiescence_no_pending :
    (∀ (root : Node) (s : SchedState), Reachable root s →
       s.ops_complete = s.ops_scheduled → s.queue = [] ∧ s.running = []) ∧
    (∀ s t : SchedState, Step s t → s.ops_complete < t.ops_complete →
       t.ops_scheduled = s.ops_scheduled ∧
       ∃ a b, s.running = a ++ ([] : List Node) :: b ∧ t.running = a ++ b) := by
  constructor
  · intro root s h heq
    have hinv := sched_inv root s h
    have hq : s.queue.length = 0 := by omega
    have hr : s.running.length = 0 := by omega
    exact ⟨List.length_eq_zero.mp hq, List.length_eq_zero.mp hr⟩
  · intro s t hst hlt
    cases hst <;>
      first
      | (exfalso; dsimp only at hlt; omega)
      | (rename_i a b ht; exact ⟨rfl, a, b, ht, rfl⟩)

/-- Witness for C2 at the freshly constructed analyzer, where completed and
scheduled are both 0. -/
theorem quiescence_no_pending_witness :
    (initState Node.other).queue = [] ∧ (initState Node.other).running = [] :=
  quiescence_no_pending.1 Node.other (initState Node.other)
    Relation.ReflTransGen.refl rfl

/-- C4: evaluating the line matcher at the claim's boundary inputs with the
default max_errors = 3.  A file with max_errors + 1 = 4 consecutive decode
failures followed by a matching line still reports the match — the break fires
only at the (max_errors + 2)-nd consecutive failure, because the source tests
count > max_errors before incrementing — while the claim (and the CLI help
text "Max consecutive errors to allow before skipping file") says the file is
abandoned first.  The max_errors-failure case and the reset behaviour agree
with the claim. -/
theorem error_budget_off_by_one :
    (grep_file argsBudget rmMatch "f" 0 budgetLines4).1 = ["MATCH"] ∧
    (grep_file argsBudget rmMatch "f" 0 budgetLines5).1 = [] ∧
    (grep_file argsBudget rmMatch "f" 0 budgetLines3).1 = ["MATCH"] ∧
    (grep_file argsBudget rmMatch "f" 0 budgetReset).1 = ["MATCH"] := by
  decide

/-- C5: an ordinary file discovered by enumerating a directory is handed to
grep_file by walk_path's is_file branch without ever consulting the filename
filter — "root/notes.md" is scanned although the ".txt" filter rejects it.
Only zip entries pass through search_file's filter test. -/
theorem dir_files_bypass_filter :
    walk_path defaultArgs fmTxt "root" treeUnfiltered =
      Except.ok (["root/notes.md"], []) ∧
    fmTxt "root/notes.md" = false := by
  decide

/-- What walk_zip scans and warns about: every scanned path is the parent path
joined to a file entry name by the literal "!", does not end in ".zip", and
passed the filename filter; every file entry whose composed name ends in
".zip" raises the no-support notice. -/
theorem walk_zip_spec (a : Args) (fm : String → Bool) (path : String)
    (zs : List ZEntry) :
    (∀ q ∈ (walk_zip a fm path zs).1,
       ∃ name, ZEntry.zfile name ∈ zs ∧ q = path ++ "!" ++ name ∧
         endsWithStr q ".zip" = false ∧ fm q = true) ∧
    (∀ name, ZEntry.zfile name ∈ zs →
       endsWithStr (path ++ "!" ++ name) ".zip" = true →
       Diag.noZipOfZip (path ++ "!" ++ name) ∈ (walk_zip a fm path zs).2) := by
  induction zs with
  | nil =>
      constructor
      · intro q hq; simp [walk_zip] at hq
      · intro name hmem; simp at hmem
  | cons z rest ih =>
      cases z with
      | zdir nm =>
          constructor
          · intro q hq
            rw [walk_zip] at hq
            obtain ⟨name, hn, h2⟩ := ih.1 q hq
            exact ⟨name, List.mem_cons_of_mem _ hn, h2⟩
          · intro name hmem hz
            rw [walk_zip]
            rcases List.mem_cons.mp hmem with h | h
            · exact absurd h (by simp)
            · exact ih.2 name h hz
      | zfile nm =>
          constructor
          · intro q hq
            rw [walk_zip] at hq
            by_cases hzz : endsWithStr (path ++ "!" ++ nm) ".zip" = true
            · simp only [hzz, if_true, List.nil_append] at hq
              obtain ⟨name, hn, h2⟩ := ih.1 q hq
              exact ⟨name, List.mem_cons_of_mem _ hn, h2⟩
            · have hzf : endsWithStr (path ++ "!" ++ nm) ".zip" = false := by
                simpa using hzz
              by_cases hf : fm (path ++ "!" ++ nm) = true
              · simp only [hzf, Bool.false_eq_true, if_false, search_file, hf,
                  if_true, List.cons_append, List.nil_append, List.mem_cons] at hq
                rcases hq with rfl | hq
                · exact ⟨nm, List.mem_cons_self _ _, rfl, hzf, hf⟩
                · obtain ⟨name, hn, h2⟩ := ih.1 q hq
                  exact ⟨name, List.mem_cons_of_mem _ hn, h2⟩
              · have hff : fm (path ++ "!" ++ nm) = false := by simpa using hf
                simp only [hzf, Bool.false_eq_true, if_false, search_file, hff,
                  List.nil_append] at hq
                obtain ⟨name, hn, h2⟩ := ih.1 q hq
                exact ⟨name, List.mem_cons_of_mem _ hn, h2⟩
          · intro name hmem hz
            rw [walk_zip]
            rcases List.mem_cons.mp hmem with h | h
            · injection h with hn
              subst hn
              simp [hz]
            · have hrest := ih.2 name h hz
              by_cases hzz : endsWithStr (path ++ "!" ++ nm) ".zip" = true
              · simp only [hzz, if_true]
                exact List.mem_append_right _ hrest
              · have hzf : endsWithStr (path ++ "!" ++ nm) ".zip" = false := by
                  simpa using hzz
                simp only [hzf, Bool.false_eq_true, if_false]
                exact List.mem_append_right _ hrest

/-- C6 (amended): each descent into an archive appends the literal "!" (not the
configured container delimiter) and the entry name to the parent's logical
path; an entry whose composed name ends in ".zip" is never recursed into or
scanned — it only raises the unconditional no-support notice — so nothing is
ever reported under a doubly nested logical path. -/
theorem walk_zip_logical_paths :
    (∀ (a : Args) (fm : String → Bool) (path : String) (zs : List ZEntry)
       (q : String), q ∈ (walk_zip a fm path zs).1 →
       ∃ name, ZEntry.zfile name ∈ zs ∧ q = path ++ "!" ++ name ∧
         endsWithStr q ".zip" = false ∧ fm q = true) ∧
    (∀ (a : Args) (fm : String → Bool) (path : String) (zs : List ZEntry)
       (name : String), ZEntry.zfile name ∈ zs →
       endsWithStr (path ++ "!" ++ name) ".zip" = true →
       Diag.noZipOfZip (path ++ "!" ++ name) ∈ (walk_zip a fm path zs).2 ∧
       path ++ "!" ++ name ∉ (walk_zip a fm path zs).1) := by
  constructor
  · intro a fm path zs q hq
    exact (walk_zip_spec a fm path zs).1 q hq
  · intro a fm path zs name hmem hz
    refine ⟨(walk_zip_spec a fm path zs).2 name hmem hz, fun hscan => ?_⟩
    obtain ⟨name2, _, heq, hzf, _⟩ := (walk_zip_spec a fm path zs).1 _ hscan
    rw [hz] at hzf
    exact absurd hzf (by simp)

/-- Witness for C6 on singleton archives: a plain entry scans under the
"!"-joined name, a nested zip entry only raises the notice. -/
theorem walk_zip_logical_paths_witness :
    (∃ name, ZEntry.zfile name ∈ [ZEntry.zfile "a.txt"] ∧
       "p!a.txt" = "p" ++ "!" ++ name ∧
       endsWithStr "p!a.txt" ".zip" = false ∧ fmAll "p!a.txt" = true) ∧
    Diag.noZipOfZip ("p" ++ "!" ++ "b.zip") ∈
      (walk_zip defaultArgs fmAll "p" [ZEntry.zfile "b.zip"]).2 ∧
    "p" ++ "!" ++ "b.zip" ∉ (walk_zip defaultArgs fmAll "p" [ZEntry.zfile "b.zip"]).1 :=
  ⟨walk_zip_logical_paths.1 defaultArgs fmAll "p" [ZEntry.zfile "a.txt"] "p!a.txt"
      (by decide),
   walk_zip_logical_paths.2 defaultArgs fmAll "p" [ZEntry.zfile "b.zip"] "b.zip"
      (by decide) (by decide)⟩

/-- C6 counterexample: with the container delimiter configured to "#", a
directory holding outer.zip with entries inner.zip and log.txt yields only the
"!"-joined scan "d/outer.zip!log.txt" plus the no-support notice for
inner.zip — nothing is scanned under the configured delimiter and nothing from
inside the nested archive. -/
theorem nested_zip_not_descended :
    walk_path argsHash fmAll "d" treeNested =
      Except.ok (["d/outer.zip!log.txt"],
        [Diag.noZipOfZip "d/outer.zip!inner.zip"]) ∧
    argsHash.zip_delimiter = "#" ∧
    "d/outer.zip#log.txt" ∉ scansOf (walk_path argsHash fmAll "d" treeNested) ∧
    "d/outer.zip#inner.zip#entry" ∉ scansOf (walk_path argsHash fmAll "d" treeNested) := by
  decide

/-- C7 (amended): a failed pattern or file_pat compilation surfaces as Err —
a non-zero exit — before any walking; but a root path that is neither a
directory nor a regular file and does not end in ".zip" is only skipped (with
a verbose-gated notice) and the run exits zero; a regular-file root is
scanned with no filename-filter test, and the Ok exit does not depend on
what the content scan finds. -/
theorem startup_and_exit_codes :
    (∀ (fOk : Bool) (a : Args) (fm : String → Bool) (p : String) (n : Node),
       mainRun false fOk a fm p n = Except.error "pattern compile failed") ∧
    (∀ (a : Args) (fm : String → Bool) (p : String) (n : Node),
       mainRun true false a fm p n = Except.error "file_pat compile failed") ∧
    (∀ (a : Args) (fm : String → Bool) (p : String),
       endsWithStr p ".zip" = false →
       mainRun true true a fm p Node.other =
         Except.ok ([], if a.verbose then [Diag.infoSkipNonFile p] else [])) ∧
    (∀ (a : Args) (fm : String → Bool) (p : String),
       endsWithStr p ".zip" = false →
       mainRun true true a fm p (Node.file FileBytes.plain) =
         Except.ok ([p], [])) := by
  refine ⟨fun fOk a fm p n => rfl, fun a fm p n => rfl, ?_, ?_⟩
  · intro a fm p hp
    simp [mainRun, walk_path, hp]
  · intro a fm p hp
    simp [mainRun, walk_path, hp]

/-- Witness for C7 at concrete roots. -/
theorem startup_and_exit_codes_witness :
    mainRun false true defaultArgs fmAll "r" Node.other =
      Except.error "pattern compile failed" ∧
    mainRun true false defaultArgs fmAll "r" Node.other =
      Except.error "file_pat compile failed" ∧
    mainRun true true defaultArgs fmAll "r" Node.other =
      Except.ok ([], if defaultArgs.verbose then [Diag.infoSkipNonFile "r"] else []) ∧
    mainRun true true defaultArgs fmAll "r" (Node.file FileBytes.plain) =
      Except.ok (["r"], []) :=
  ⟨startup_and_exit_codes.1 true defaultArgs fmAll "r" Node.other,
   startup_and_exit_codes.2.1 defaultArgs fmAll "r" Node.other,
   startup_and_exit_codes.2.2.1 defaultArgs fmAll "r" (by decide),
   startup_and_exit_codes.2.2.2 defaultArgs fmAll "r" (by decide)⟩

/-- C7 counterexample: a malformed root — a path that exists as neither
directory nor file — is classified into walk_path's silent skip branch, the
run completes and the process exits zero, not non-zero. -/
theorem malformed_root_exits_zero :
    mainRun true true defaultArgs fmAll "no-such-dir" Node.other =
      Except.ok ([], []) := by
  decide

/-- walk_zip only ever prints the no-support notice and the verbose-gated skip
notice, neither of which is quiet-gated. -/
theorem walk_zip_diags_not_quietGated (a : Args) (fm : String → Bool)
    (path : String) (zs : List ZEntry) :
    ∀ d ∈ (walk_zip a fm path zs).2, d.quietGated = false := by
  induction zs with
  | nil => intro d hd; simp [walk_zip] at hd
  | cons z rest ih =>
      intro d hd
      cases z with
      | zdir nm =>
          rw [walk_zip] at hd
          exact ih d hd
      | zfile nm =>
          rw [walk_zip] at hd
          by_cases hzz : endsWithStr (path ++ "!" ++ nm) ".zip" = true
          · simp only [hzz, if_true, List.mem_append, List.mem_singleton] at hd
            rcases hd with rfl | hd
            · rfl
            · exact ih d hd
          · have hzf : endsWithStr (path ++ "!" ++ nm) ".zip" = false := by
              simpa using hzz
            by_cases hf : fm (path ++ "!" ++ nm) = true
            · simp only [hzf, Bool.false_eq_true, if_false, search_file, hf,
                if_true, List.nil_append] at hd
              exact ih d hd
            · have hff : fm (path ++ "!" ++ nm) = false := by simpa using hf
              simp only [hzf, Bool.false_eq_true, if_false, search_file, hff,
                List.mem_append] at hd
              rcases hd with hd | hd
              · simp_all [Diag.quietGated]
              · exact ih d hd

mutual
/-- With quiet set, no quiet-gated diagnostic escapes a walk: the per-unit
skip warning of walk_dir's worker closure is behind the quiet test, and
every other walk diagnostic is verbose-gated or unconditional by design. -/
theorem walk_path_quiet_diags (a : Args) (fm : String → Bool) (path : String)
    (n : Node) (hq : a.quiet = true) :
    ∀ res, walk_path a fm path n = Except.ok res →
      ∀ d ∈ res.2, d.quietGated = false := by
  cases n with
  | dir es =>
      intro res hres d hd
      simp only [walk_path.eq_def] at hres
      injection hres with hres
      subst hres
      exact walk_dir_quiet_diags a fm path es hq d hd
  | file bytes =>
      intro res hres d hd
      simp only [walk_path.eq_def] at hres
      by_cases hz : endsWithStr path ".zip" = true
      · cases bytes with
        | archiveBytes zs =>
            simp only [hz, if_true] at hres
            injection hres with hres
            subst hres
            exact walk_zip_diags_not_quietGated a fm path zs d hd
        | plain => simp only [hz, if_true] at hres; cases hres
      · have hzf : endsWithStr path ".zip" = false := by simpa using hz
        simp only [hzf, Bool.false_eq_true, if_false] at hres
        injection hres with hres
        subst hres
        simp at hd
  | other =>
      intro res hres d hd
      simp only [walk_path.eq_def] at hres
      by_cases hz : endsWithStr path ".zip" = true
      · simp only [hz, if_true] at hres; cases hres
      · have hzf : endsWithStr path ".zip" = false := by simpa using hz
        simp only [hzf, Bool.false_eq_true, if_false] at hres
        injection hres with hres
        subst hres
        simp_all [Diag.quietGated]

/-- walk_dir under quiet: child failures are swallowed silently, child walks
recurse. -/
theorem walk_dir_quiet_diags (a : Args) (fm : String → Bool) (path : String)
    (es : List (String × Node)) (hq : a.quiet = true) :
    ∀ d ∈ (walk_dir a fm path es).2, d.quietGated = false := by
  cases es with
  | nil => intro d hd; simp [walk_dir] at hd
  | cons hd_entry rest =>
      intro d hd
      obtain ⟨name, child⟩ := hd_entry
      rw [walk_dir.eq_def] at hd
      simp only [List.mem_append] at hd
      rcases hd with hd | hd
      · rcases hres : walk_path a fm (path ++ "/" ++ name) child with e | r
        · rw [hres] at hd
          simp only [hq, if_true] at hd
          simp at hd
        · rw [hres] at hd
          exact walk_path_quiet_diags a fm (path ++ "/" ++ name) child hq r hres d hd
      · exact walk_dir_quiet_diags a fm path rest hq d hd
end

/-- grep_file prints nothing when quiet: both of its warnings sit behind the
quiet test. -/
theorem grep_file_quiet (a : Args) (rm : String → Bool) (p : String)
    (hq : a.quiet = true) :
    ∀ (ec : Nat) (xs : List (Except String String)),
      (grep_file a rm p ec xs).2.1 = [] := by
  intro ec xs
  induction xs generalizing ec with
  | nil => simp [grep_file]
  | cons x rest ih =>
      cases x with
      | error e =>
          by_cases h : a.max_errors < ec
          · simp [grep_file, h, hq]
          · simp [grep_file, h, hq, ih]
      | ok line =>
          by_cases h : rm line = true
          · by_cases h2 : (a.file_only || a.zip_only) = true
            · simp [grep_file, h, h2]
            · simp [grep_file, h, h2, ih]
          · have hf : rm line = false := by simpa using h
            simp [grep_file, hf, ih]

/-- C8 (amended): quiet suppresses the line-decode warnings of grep_file, the
JSON-decode warning of the jq matcher, and every quiet-gated diagnostic of a
walk (in particular the per-unit skip warning for unreadable children) — but a
query-evaluation error always prints an "Error:" line (to stdout), and a
nested-zip entry always prints the no-support notice, quiet or not. -/
theorem quiet_suppression_scope :
    (∀ (a : Args) (rm : String → Bool) (p : String) (ec : Nat)
       (xs : List (Except String String)), a.quiet = true →
       (grep_file a rm p ec xs).2.1 = []) ∧
    (∀ (a : Args) (p je : String) (fr : Json → List (Except String Json)),
       a.quiet = true →
       grep_file_jq a p (Except.error je) fr = some ([], [], false)) ∧
    (∀ (a : Args) (fm : String → Bool) (path : String) (n : Node)
       (res : List String × List Diag), a.quiet = true →
       walk_path a fm path n = Except.ok res →
       ∀ d ∈ res.2, d.quietGated = false) ∧
    (∀ (a : Args) (p e : String),
       jq_out_loop a p [Except.error e] = some ([], [Diag.jqError e], false)) ∧
    (∀ (a : Args) (fm : String → Bool) (p name : String),
       endsWithStr (p ++ "!" ++ name) ".zip" = true →
       Diag.noZipOfZip (p ++ "!" ++ name) ∈
         (walk_zip a fm p [ZEntry.zfile name]).2) := by
  refine ⟨?_, ?_, ?_, ?_, ?_⟩
  · intro a rm p ec xs hq
    exact grep_file_quiet a rm p hq ec xs
  · intro a p je fr hq
    simp [grep_file_jq, hq]
  · intro a fm path n res hq hres
    exact walk_path_quiet_diags a fm path n hq res hres
  · intro a p e
    rfl
  · intro a fm p name hz
    exact (walk_zip_spec a fm p [ZEntry.zfile name]).2 name (by simp) hz

/-- Witness for C8 at concrete quiet runs. -/
theorem quiet_suppression_scope_witness :
    (grep_file argsQuiet rmMatch "f" 0 [errLine]).2.1 = [] ∧
    grep_file_jq argsQuiet "p" (Except.error "je") idFilter = some ([], [], false) ∧
    Diag.quietGated (Diag.infoSkipNonFile "q") = false ∧
    jq_out_loop defaultArgs "p" [Except.error "e"] =
      some ([], [Diag.jqError "e"], false) ∧
    Diag.noZipOfZip ("p" ++ "!" ++ "b.zip") ∈
      (walk_zip defaultArgs fmAll "p" [ZEntry.zfile "b.zip"]).2 :=
  ⟨quiet_suppression_scope.1 argsQuiet rmMatch "f" 0 [errLine] rfl,
   quiet_suppression_scope.2.1 argsQuiet "p" "je" idFilter rfl,
   quiet_suppression_scope.2.2.1 argsQV fmAll "q" Node.other
     ([], [Diag.infoSkipNonFile "q"]) rfl (by decide)
     (Diag.infoSkipNonFile "q") (by decide),
   quiet_suppression_scope.2.2.2.1 defaultArgs "p" "e",
   quiet_suppression_scope.2.2.2.2 defaultArgs fmAll "p" "b.zip" (by decide)⟩

/-- C8 counterexample: in a quiet run, a query-evaluation error still prints
its "Error:" line and a nested zip entry still prints the no-support notice. -/
theorem quiet_run_still_prints :
    argsQuiet.quiet = true ∧
    grep_file_jq argsQuiet "doc.json" (Except.ok (Json.str "x")) filterErr =
      some ([], [Diag.jqError "jq eval failed"], false) ∧
    (walk_zip argsQuiet fmAll "p" [ZEntry.zfile "inner.zip"]).2 =
      [Diag.noZipOfZip "p!inner.zip"] := by
  decide

/-- n next calls on the shared cursor deliver exactly the first n elements and
leave exactly the rest as the one shared state. -/
theorem nextN_spec {α : Type} (n : Nat) (l : List α) :
    nextN n l = (l.take n, l.drop n) := by
  induction n generalizing l with
  | zero => simp [nextN]
  | succ k ih =>
      cases l with
      | nil => simp [nextN, SharedIterator.next]
      | cons x rest => simp [nextN, SharedIterator.next, ih]

theorem posRange_append (s m n : Nat) :
    posRange s (m + n) = posRange s m ++ posRange (s + m) n := by
  induction m generalizing s with
  | zero => simp [posRange]
  | succ k ih =>
      have h1 : k + 1 + n = (k + n) + 1 := by omega
      rw [h1]
      simp only [posRange]
      rw [ih, List.cons_append]
      have h2 : s + 1 + k = s + (k + 1) := by omega
      rw [h2]

theorem mem_posRange (q s n : Nat) : q ∈ posRange s n ↔ s ≤ q ∧ q < s + n := by
  induction n generalizing s with
  | zero => simp [posRange]
  | succ k ih =>
      simp only [posRange, List.mem_cons, ih]
      omega

theorem posRange_nodup (s n : Nat) : (posRange s n).Nodup := by
  induction n generalizing s with
  | zero => simp [posRange]
  | succ k ih =>
      simp only [posRange, List.nodup_cons]
      refine ⟨fun hmem => ?_, ih (s + 1)⟩
      rw [mem_posRange] at hmem
      omega

theorem map_add_range (s n : Nat) :
    (List.range n).map (fun i => s + i) = posRange s n := by
  induction n generalizing s with
  | zero => simp [posRange]
  | succ k ih =>
      rw [List.range_succ_eq_map]
      simp only [List.map_cons, List.map_map, Nat.add_zero, posRange]
      congr 1
      have hfun : ((fun i => s + i) ∘ Nat.succ) = (fun i => (s + 1) + i) := by
        funext i
        simp [Function.comp]
        omega
      rw [hfun, ih]

theorem ctxReads_map_snd (pos n : Nat) :
    (ctxReads pos n).map Prod.snd = posRange (pos + 1) n := by
  unfold ctxReads
  rw [List.map_map]
  exact map_add_range (pos + 1) n

theorem ctxReads_length (pos n : Nat) : (ctxReads pos n).length = n := by
  simp [ctxReads]

/-- report never pulls more context than the shared iterator still holds. -/
theorem report_bound (ctx : ScanContext) (rest : List (Except String String))
    (n : Nat) (b : Bool) (h : report ctx rest = some (n, b)) : n ≤ rest.length := by
  unfold report at h
  by_cases hs : ctx.output.stopAfterFirst = true
  · simp only [hs, if_true] at h
    injection h with h
    cases h
    simp
  · have hsf : ctx.output.stopAfterFirst = false := by simpa using hs
    simp only [hsf, Bool.false_eq_true, if_false] at h
    by_cases ha : ((rest.take ctx.after).all isOkE) = true
    · simp only [ha, if_true] at h
      injection h with h
      cases h
      simp [List.length_take]
    · simp_all

/-- The reads a process_file run makes from the shared cursor are exactly the
positions from its starting position up to its final position, in order: no
line is pulled twice by any combination of primary and context reads, none in
the consumed prefix is skipped, and a run that neither aborts on the error
budget nor exits early consumes the file to its end. -/
theorem process_file_go_reads (ctx : ScanContext) (rm : String → Bool)
    (rc : String → Option (List String)) :
    ∀ (ec pos : Nat) (l : List (Except String String)) (out : ScanResult),
      process_file_go ctx rm rc ec pos l = some out →
      out.reads.map Prod.snd = posRange pos (out.pos - pos) ∧
      pos ≤ out.pos ∧ out.pos ≤ pos + l.length ∧
      (out.aborted = false → out.hit = false → out.pos = pos + l.length) := by
  intro ec pos l
  induction ec, pos, l using process_file_go.induct ctx rm rc with
  | case1 ec pos =>
      intro out h
      rw [process_file_go] at h
      injection h with h
      subst h
      simp [posRange]
  | case2 ec pos e rest hgt =>
      intro out h
      rw [process_file_go] at h
      rw [if_pos hgt] at h
      injection h with h
      subst h
      refine ⟨?_, by dsimp only; omega, ?_, fun hab => absurd hab (by simp)⟩
      · have h1 : pos + 1 - pos = 1 := by omega
        rw [h1]
        simp [posRange]
      · dsimp only
        simp only [List.length_cons]
        omega
  | case3 ec pos e rest hle ih =>
      intro out h
      rw [process_file_go] at h
      rw [if_neg hle] at h
      obtain ⟨out1, hgo, hmap⟩ := Option.map_eq_some'.mp h
      subst hmap
      obtain ⟨hreads, hle1, hle2, hcomp⟩ := ih out1 hgo
      refine ⟨?_, by dsimp only; omega, ?_, ?_⟩
      · dsimp only
        rw [List.map_cons, hreads]
        have h1 : out1.pos - pos = (out1.pos - (pos + 1)) + 1 := by omega
        rw [h1]
        simp only [posRange]
      · dsimp only
        simp only [List.length_cons]
        omega
      · dsimp only
        intro hab hhit
        have := hcomp hab hhit
        simp only [List.length_cons]
        omega
  | case4 ec pos line rest hm hr =>
      intro out h
      rw [process_file_go] at h
      simp only [hm, eq_self_iff_true, if_true, hr] at h
      exact Option.noConfusion h
  | case5 ec pos line rest hm n hr =>
      intro out h
      rw [process_file_go] at h
      simp only [hm, eq_self_iff_true, if_true, hr] at h
      injection h with h
      subst h
      have hn := report_bound ctx rest n true hr
      refine ⟨?_, by dsimp only; omega, ?_, ?_⟩
      · dsimp only
        rw [List.map_cons, ctxReads_map_snd]
        have h1 : pos + 1 + n - pos = n + 1 := by omega
        rw [h1]
        simp only [posRange]
      · dsimp only
        simp only [List.length_cons]
        omega
      · dsimp only
        intro hab hhit
        exact absurd hhit (by simp)
  | case6 ec pos line rest hm n hr ih =>
      intro out h
      rw [process_file_go] at h
      simp only [hm, eq_self_iff_true, if_true, hr] at h
      obtain ⟨out1, hgo, hmap⟩ := Option.map_eq_some'.mp h
      subst hmap
      obtain ⟨hreads, hle1, hle2, hcomp⟩ := ih out1 hgo
      have hn := report_bound ctx rest n false hr
      have hdrop : (rest.drop n).length = rest.length - n := by
        simp [List.length_drop]
      refine ⟨?_, by dsimp only; omega, ?_, ?_⟩
      · dsimp only
        rw [List.map_append, List.map_cons, ctxReads_map_snd, hreads]
        have h1 : out1.pos - pos = (n + 1) + (out1.pos - (pos + 1 + n)) := by
          omega
        rw [h1, posRange_append]
        have h2 : pos + (n + 1) = pos + 1 + n := by omega
        rw [h2]
        congr 1
      · dsimp only
        simp only [List.length_cons]
        omega
      · dsimp only
        intro hab hhit
        have := hcomp hab hhit
        simp only [List.length_cons]
        omega
  | case7 ec pos line rest hm ih =>
      intro out h
      rw [process_file_go] at h
      rw [if_neg hm] at h
      obtain ⟨out1, hgo, hmap⟩ := Option.map_eq_some'.mp h
      subst hmap
      obtain ⟨hreads, hle1, hle2, hcomp⟩ := ih out1 hgo
      refine ⟨?_, by dsimp only; omega, ?_, ?_⟩
      · dsimp only
        rw [List.map_cons, hreads]
        have h1 : out1.pos - pos = (out1.pos - (pos + 1)) + 1 := by omega
        rw [h1]
        simp only [posRange]
      · dsimp only
        simp only [List.length_cons]
        omega
      · dsimp only
        intro hab hhit
        have := hcomp hab hhit
        simp only [List.length_cons]
        omega

/-- Mapping a function over an optional result preserves whether it is some. -/
theorem isSome_map_opt {α β : Type} (f : α → β) (x : Option α) :
    (x.map f).isSome = x.isSome := by
  cases x <;> rfl

/-- When every line of the file decodes, process_file cannot panic: the budget
branch is unreachable and every context pull unwraps an Ok. -/
theorem process_file_go_all_ok (ctx : ScanContext) (rm : String → Bool)
    (rc : String → Option (List String)) :
    ∀ (ec pos : Nat) (l : List (Except String String)),
      (∀ r ∈ l, isOkE r = true) →
      (process_file_go ctx rm rc ec pos l).isSome = true := by
  intro ec pos l
  induction ec, pos, l using process_file_go.induct ctx rm rc with
  | case1 ec pos =>
      intro hall
      rw [process_file_go]
      rfl
  | case2 ec pos e rest hgt =>
      intro hall
      exact absurd (hall (Except.error e) (by simp)) (by simp [isOkE])
  | case3 ec pos e rest hle ih =>
      intro hall
      exact absurd (hall (Except.error e) (by simp)) (by simp [isOkE])
  | case4 ec pos line rest hm hr =>
      intro hall
      exfalso
      unfold report at hr
      by_cases hs : ctx.output.stopAfterFirst = true
      · simp [hs] at hr
      · have hsf : ctx.output.stopAfterFirst = false := by simpa using hs
        simp only [hsf, Bool.false_eq_true, if_false] at hr
        have hall2 : ((rest.take ctx.after).all isOkE) = true := by
          rw [List.all_eq_true]
          intro r hmem
          exact hall r (List.mem_cons_of_mem _ (List.mem_of_mem_take hmem))
        simp [hall2] at hr
  | case5 ec pos line rest hm n hr =>
      intro hall
      rw [process_file_go]
      simp [hm, hr]
  | case6 ec pos line rest hm n hr ih =>
      intro hall
      rw [process_file_go]
      simp only [hm, eq_self_iff_true, if_true, hr, isSome_map_opt]
      apply ih
      intro r hmem
      exact hall r (List.mem_cons_of_mem _ (List.mem_of_mem_drop hmem))
  | case7 ec pos line rest hm ih =>
      intro hall
      rw [process_file_go]
      rw [if_neg hm]
      rw [isSome_map_opt]
      apply ih
      intro r hmem
      exact hall r (List.mem_cons_of_mem _ hmem)

/-- C3 (amended): handles of the shared cursor alias one position — n next
calls spread over any handles deliver the first n elements exactly once and
leave exactly the remainder — and a process_file run pulls each position at
most once across primary and context reads, in increasing order with nothing
skipped inside the consumed prefix; a run that neither exits early nor aborts
on the error budget visits every line of the file exactly once.  (A run that
does exit early or abort leaves a suffix unvisited, which is why the claim's
unconditional every-line clause needs the stated proviso.) -/
theorem shared_cursor_exactly_once :
    (∀ (n : Nat) (l : List Nat),
       (nextN n l).1 ++ (nextN n l).2 = l ∧ (nextN n l).1 = l.take n) ∧
    (∀ (ctx : ScanContext) (rm : String → Bool) (rc : String → Option (List String))
       (l : List (Except String String)) (out : ScanResult),
       process_file ctx rm rc l = some out →
       out.reads.map Prod.snd = posRange 0 out.pos ∧
       (out.reads.map Prod.snd).Nodup ∧
       out.pos ≤ l.length ∧
       (out.aborted = false → out.hit = false → out.pos = l.length)) := by
  constructor
  · intro n l
    rw [nextN_spec]
    exact ⟨List.take_append_drop n l, rfl⟩
  · intro ctx rm rc l out h
    obtain ⟨hreads, hle1, hle2, hcomp⟩ := process_file_go_reads ctx rm rc 0 0 l out h
    have h0 : out.pos - 0 = out.pos := by omega
    rw [h0] at hreads
    refine ⟨hreads, ?_, by omega, ?_⟩
    · rw [hreads]
      exact posRange_nodup 0 out.pos
    · intro hab hhit
      have := hcomp hab hhit
      omega

/-- Witness for C3: two next calls on a four-element stream, and a completed
no-match scan of a one-line file reading position 0 exactly once. -/
theorem shared_cursor_exactly_once_witness :
    ((nextN 2 [5, 6, 7]).1 ++ (nextN 2 [5, 6, 7]).2 = [5, 6, 7] ∧
      (nextN 2 [5, 6, 7]).1 = [5, 6, 7].take 2) ∧
    (outW.reads.map Prod.snd = posRange 0 outW.pos ∧
     (outW.reads.map Prod.snd).Nodup ∧
     outW.pos ≤ lW.length ∧
     (outW.aborted = false → outW.hit = false → outW.pos = lW.length)) :=
  ⟨shared_cursor_exactly_once.1 2 [5, 6, 7],
   shared_cursor_exactly_once.2 ctxWhole rmNone rcNone lW outW (by
     simp [process_file, process_file_go, lineMatches, ctxWhole, rmNone, rcNone,
       lW, outW, report, Output.stopAfterFirst])⟩

/-- C3 counterexample: not every line of the file is visited.  In a path-only
run the reporter stops the file at the first match, so a two-line file is left
with line 1 never read; and a file that trips the consecutive-error break is
abandoned with its last line never read — in both runs the primary and context
reads together cover a strict prefix, not every line. -/
theorem shared_cursor_counterexample :
    (process_file ctxPathOnly rmLit rcNone [Except.ok "m", Except.ok "x"] =
      some { hit := true, pos := 1, reads := [(ReadTag.primary, 0)],
             aborted := false } ∧
     ([Except.ok "m", Except.ok "x"] : List (Except String String)).length = 2) ∧
    (process_file ctxWhole rmLit rcNone abortLines =
      some { hit := false, pos := 5,
             reads := [(ReadTag.primary, 0), (ReadTag.primary, 1),
               (ReadTag.primary, 2), (ReadTag.primary, 3), (ReadTag.primary, 4)],
             aborted := true } ∧
     abortLines.length = 6) := by
  refine ⟨⟨?_, rfl⟩, ⟨?_, rfl⟩⟩
  · simp [process_file, process_file_go, lineMatches, ctxPathOnly, rmLit,
      report, Output.stopAfterFirst, ctxReads]
  · simp [process_file, process_file_go, lineMatches, ctxWhole, rmLit,
      abortLines, errLine]

/-- C9: the after-context pulls go through unwrap, so process_file is panic
free whenever every line it can read decodes — and a file whose match is
directly followed by a decode failure panics (none) when that line is pulled
as context, rather than counting it against the error budget or truncating. -/
theorem context_pull_unwrap :
    (∀ (ctx : ScanContext) (rm : String → Bool) (rc : String → Option (List String))
       (l : List (Except String String)), (∀ r ∈ l, isOkE r = true) →
       (process_file ctx rm rc l).isSome = true) ∧
    process_file ctxWhole rmLit rcNone panicLines = none := by
  constructor
  · intro ctx rm rc l hall
    exact process_file_go_all_ok ctx rm rc 0 0 l hall
  · simp [process_file, process_file_go, lineMatches, ctxWhole, rmLit, rcNone,
      report, Output.stopAfterFirst, panicLines, isOkE]

/-- Witness for C9: an all-Ok file scans without panic; the panic input is the
closed second conjunct. -/
theorem context_pull_unwrap_witness :
    (process_file ctxWhole rmNone rcNone lW).isSome = true ∧
    process_file ctxWhole rmLit rcNone panicLines = none :=
  ⟨context_pull_unwrap.1 ctxWhole rmNone rcNone lW (by decide),
   context_pull_unwrap.2⟩

/-- Every query result being a string keeps the jq report loop panic free. -/
theorem jq_out_loop_all_str (a : Args) (p : String) :
    ∀ (l : List (Except String Json)),
      (∀ r ∈ l, ∀ j, r = Except.ok j → (Json.as_str j).isSome = true) →
      (jq_out_loop a p l).isSome = true := by
  intro l
  induction l with
  | nil => intro h; rfl
  | cons x rest ih =>
      intro h
      cases x with
      | ok j =>
          have hs := h (Except.ok j) (by simp) j rfl
          rw [jq_out_loop]
          rcases hj : Json.as_str j with _ | s
          · rw [hj] at hs
            simp at hs
          · simp only [hj]
            by_cases h2 : (a.file_only || a.zip_only) = true
            · simp [h2]
            · have h2f : (a.file_only || a.zip_only) = false := by simpa using h2
              simp only [h2f, Bool.false_eq_true, if_false, isSome_map_opt]
              apply ih
              intro r hr j2 hj2
              exact h r (List.mem_cons_of_mem _ hr) j2 hj2
      | error e =>
          rw [jq_out_loop]
          rw [isSome_map_opt]
          apply ih
          intro r hr j2 hj2
          exact h r (List.mem_cons_of_mem _ hr) j2 hj2

/-- C10: the jq matcher reports each query result through as_str().unwrap(),
so a query yielding the non-string document 5 (the identity query on the JSON
document 5) panics instead of reporting or skipping it; runs in which every
query result is a string — or in which the document fails to parse — never
panic. -/
theorem jq_as_str_unwrap :
    grep_file_jq defaultArgs "doc.json" (Except.ok (Json.num 5)) idFilter = none ∧
    (∀ (a : Args) (p : String) (v : Json) (fr : Json → List (Except String Json)),
       (∀ r ∈ fr v, ∀ j, r = Except.ok j → (Json.as_str j).isSome = true) →
       (grep_file_jq a p (Except.ok v) fr).isSome = true) ∧
    (∀ (a : Args) (p je : String) (fr : Json → List (Except String Json)),
       (grep_file_jq a p (Except.error je) fr).isSome = true) := by
  refine ⟨rfl, ?_, ?_⟩
  · intro a p v fr h
    exact jq_out_loop_all_str a p (fr v) h
  · intro a p je fr
    simp [grep_file_jq]

/-- Witness for C10: a string-valued query reports without panic, as does a
parse failure. -/
theorem jq_as_str_unwrap_witness :
    (grep_file_jq defaultArgs "p" (Except.ok (Json.str "s")) strFilter).isSome = true ∧
    (grep_file_jq defaultArgs "p" (Except.error "bad json") strFilter).isSome = true :=
  ⟨jq_as_str_unwrap.2.1 defaultArgs "p" (Json.str "s") strFilter (by
     intro r hr j hj
     simp only [strFilter, List.mem_singleton] at hr
     subst hr
     injection hj with hj
     subst hj
     rfl),
   jq_as_str_unwrap.2.2 defaultArgs "p" "bad json" strFilter⟩
